import Mathlib

/-!
Shallow embedding of the striped file I/O engine of radosfs (src/src/FileIO.cc).

Bytes are modelled as natural numbers, byte strings as `List Nat`, and the
backing object store of one inode as a map from stripe index to an optional
object.  The base object is stripe index 0; it carries the `file_size` omap
entry, modelled by the `sizeAttr` field.  Advisory locks and the asynchronous
mtime update do not change any object data or omap state, so they are not part
of the state model; asynchronous stripe operations are applied to the state at
the point where the code submits them and waits for them (`syncAndResetLocker`),
which is before every modelled operation returns.
-/

namespace RadosFs

/-- One object of the backing pool: its byte contents and (for the base
object, index 0) the `file_size` omap entry, stored as the raw bytes of a
hex string. -/
structure Obj where
  data : List Nat
  sizeAttr : Option (List Nat)
deriving DecidableEq

/-- The pool state of a single inode: stripe index to object. -/
abbrev FileState := Nat → Option Obj

/-- Engine configuration.  `hexWidth` is the fixed width of the hex encoding
of `file_size`; the spec requires it to be wide enough for the maximal pool
file size, which is the `pool_lt` field. -/
structure Config where
  stripeSize : Nat
  poolSize : Nat
  hasAlignment : Bool
  hexWidth : Nat
  stripe_pos : 0 < stripeSize
  pool_lt : poolSize < 16 ^ hexWidth

/-- ASCII byte of a lowercase hex digit. -/
def hexDigitByte (d : Nat) : Nat :=
  if d < 10 then 48 + d else 87 + d

/-- Modelled from the spec: `fileSizeToHex` (radosfscommon, not under src/)
encodes a size as a fixed-width, zero-padded, lowercase hex string whose
lexicographic order coincides with numeric order.  Most significant digit
first. -/
def fileSizeToHex (w n : Nat) : List Nat :=
  match w with
  | 0 => []
  | w + 1 => hexDigitByte (n / 16 ^ w) :: fileSizeToHex w (n % 16 ^ w)

/-- Numeric value of a hex digit byte, as computed by `strtoul` base 16. -/
def hexByteVal (b : Nat) : Nat :=
  if b < 58 then b - 48 else b - 87

/-- `strtoul(s, 0, 16)` on a well-formed hex byte string. -/
def parseHex (s : List Nat) : Nat :=
  s.foldl (fun acc b => acc * 16 + hexByteVal b) 0

/-- The byte-string comparison used by the omap compare operator
(memcmp order: first differing byte decides, a strict prefix is smaller). -/
def lexLt : List Nat → List Nat → Bool
  | [], [] => false
  | [], _ :: _ => true
  | _ :: _, [] => false
  | a :: as, b :: bs =>
    if a < b then true
    else if b < a then false
    else lexLt as bs

/-- Zero-pad a byte list on the right up to length `n`. -/
def padTo (d : List Nat) (n : Nat) : List Nat :=
  d ++ List.replicate (n - d.length) 0

/-- A RADOS object write at an offset: the object is zero-extended up to the
write range if needed, the range is overwritten, bytes past the range are
kept. -/
def storeWrite (d : List Nat) (off : Nat) (bs : List Nat) : List Nat :=
  let d' := padTo d (off + bs.length)
  d'.take off ++ bs ++ d'.drop (off + bs.length)

/-- Overwrite part of a caller buffer (the effect of `memcpy(buff + pos, ...)`
on the buffer viewed as a list). -/
def listWrite (l : List Nat) (pos : Nat) (bs : List Nat) : List Nat :=
  l.take pos ++ bs ++ l.drop (pos + bs.length)

/-- A RADOS object truncate: shrink to `n` bytes, or zero-extend up to `n`. -/
def truncObjData (d : List Nat) (n : Nat) : List Nat :=
  (padTo d n).take n

/-- The `file_size` omap value of an object, parsed as `strtoul(..., 16)`,
0 when the entry is absent (FileIO.cc:678-683). -/
def decodeSizeAttr (o : Obj) : Nat :=
  match o.sizeAttr with
  | none => 0
  | some s => parseHex s

/-- Last stripe index for a given file size (FileIO.cc:688-689). -/
def lastStripeOf (cfg : Config) (s : Nat) : Nat :=
  if 0 < s then (s - 1) / cfg.stripeSize else 0

/-- `FileIO::getLastStripeIndexAndSize` (FileIO.cc:661-692): omap read of
`file_size` with `assert_exists` on the base object; returns the last stripe
index and the file size. -/
def getLastStripeIndexAndSize (cfg : Config) (st : FileState) :
    Except Int (Nat × Nat) :=
  match st 0 with
  | none => .error (-2)
  | some o =>
    let fileSize := decodeSizeAttr o
    .ok (lastStripeOf cfg fileSize, fileSize)

/-- `FileIO::getSize` (FileIO.cc:700-707): the size output is initialised to 0
and a failed omap read leaves it 0. -/
def getSize (cfg : Config) (st : FileState) : Nat :=
  match getLastStripeIndexAndSize cfg st with
  | .error _ => 0
  | .ok p => p.2

/-- The currently stored `file_size` omap value, empty when the base object or
the entry is missing (how the store evaluates the comparison operand). -/
def storedSizeVal (st : FileState) : List Nat :=
  match st 0 with
  | none => []
  | some o => o.sizeAttr.getD []

/-- `FileIO::setSizeIfBigger` (FileIO.cc:709-734): an atomic compound op that
sets the `file_size` entry guarded by the store comparing the stored value
`LT` the new one; the store returns `-ECANCELED` (-125) and changes nothing
when the guard fails. -/
def setSizeIfBigger (cfg : Config) (st : FileState) (size : Nat) :
    FileState × Int :=
  let newHex := fileSizeToHex cfg.hexWidth size
  if lexLt (storedSizeVal st) newHex then
    (fun j => if j = 0 then
        some { data := (match st 0 with | none => [] | some o => o.data),
               sizeAttr := some newHex }
      else st j, 0)
  else
    (st, -125)

/-- `FileIO::setSize` (FileIO.cc:736-754): `create(false)` plus an
unconditional omap set of `file_size` on the base object. -/
def setSize (cfg : Config) (st : FileState) (size : Nat) : FileState × Int :=
  let newHex := fileSizeToHex cfg.hexWidth size
  (fun j => if j = 0 then
      some { data := (match st 0 with | none => [] | some o => o.data),
             sizeAttr := some newHex }
    else st j, 0)

/-- `FileIO::verifyWriteParams` (FileIO.cc:323-338): `ret` starts at 0, the
zero-length check assigns `-EINVAL` (-22), then the pool-size check
overwrites it with `-EFBIG` (-27). -/
def verifyWriteParams (cfg : Config) (offset length : Nat) : Int :=
  let ret : Int := 0
  let ret := if length = 0 then -22 else ret
  let ret := if offset + length > cfg.poolSize then -27 else ret
  ret

/-- The optional inline buffer bound to the engine.  `contents` is the current
inline contents string (it may be shorter than `capacity`); `spill` gives the
bytes that happen to sit in memory directly after the contents string, which
the code can read when it runs `memcpy` past the end of the string. -/
structure Inline where
  capacity : Nat
  contents : List Nat
  spill : Nat → Nat

/-- The bytes `memcpy(buff, contentsStr.c_str() + off, n)` copies: in-bounds
positions come from the contents, positions past its end come from whatever
memory follows it. -/
def inlineReadBytes (b : Inline) (off n : Nat) : List Nat :=
  (List.range n).map fun k =>
    if off + k < b.contents.length then b.contents.getD (off + k) 0
    else b.spill (off + k)

/-- Result of the inline-buffer phase of `FileIO::read` (FileIO.cc:76-100). -/
structure InlinePhase where
  buf : List Nat
  offset : Nat
  blen : Nat
  consumed : Nat
deriving DecidableEq

/-- The inline-buffer phase of `FileIO::read` (FileIO.cc:76-100): when an
inline buffer exists and `offset < capacity`, copy
`ret = min(blen, contents.length)` bytes starting at `contents + offset` into
the caller buffer, then advance `offset`, the buffer position and `blen` by
`ret`. -/
def inlinePhase (ib : Option Inline) (buf : List Nat) (offset blen : Nat) :
    InlinePhase :=
  match ib with
  | none => ⟨buf, offset, blen, 0⟩
  | some b =>
    if offset < b.capacity then
      let ret := min blen b.contents.length
      let buf := if ret > 0 then listWrite buf 0 (inlineReadBytes b offset ret)
                 else buf
      ⟨buf, offset + ret, blen - ret, ret⟩
    else ⟨buf, offset, blen, 0⟩

/-- The stripe-reading loop of `FileIO::read` (FileIO.cc:116-161).  `offset`
and `blen` are the values after the inline phase, `pos` the current position
in the caller buffer, `bytesRead` the running total.  Reading a missing
stripe yields `-ENOENT`, which the loop converts to a zero fill of the whole
requested range; an existing stripe returns `min(length, data.length - off)`
bytes and the loop zero-fills the remainder.  After processing a stripe the
loop stops when `bytesToRead < stripeSize`, otherwise subtracts `length`.
The `fuel` argument only bounds the recursion; every call made by `read`
passes `fuel = blen ≥` the number of iterations, so the 0-fuel branch (which
returns like the exhausted loop guard) is never hit with `bytesToRead ≠ 0`. -/
def readLoop (cfg : Config) (st : FileState) (offset blen : Nat) :
    Nat → List Nat → Nat → Nat → Nat → Nat → List Nat × Int
  | 0, buf, _, _, _, bytesRead => (buf, (bytesRead : Int))
  | fuel + 1, buf, pos, currentOffset, bytesToRead, bytesRead =>
    if bytesToRead = 0 then (buf, (bytesRead : Int))
    else
      let stripeIdx := (blen - bytesToRead + offset) / cfg.stripeSize
      let length := min (cfg.stripeSize - currentOffset) bytesToRead
      match st stripeIdx with
      | none =>
        let buf := listWrite buf pos (List.replicate length 0)
        let bytesRead := bytesRead + length
        if bytesToRead < cfg.stripeSize then (buf, (bytesRead : Int))
        else readLoop cfg st offset blen fuel buf (pos + length) 0
               (bytesToRead - length) bytesRead
      | some o =>
        let retBytes := (o.data.drop currentOffset).take length
        let ret := retBytes.length
        let buf := listWrite buf pos retBytes
        let buf := if ret < length
                   then listWrite buf (pos + ret) (List.replicate (length - ret) 0)
                   else buf
        let bytesRead := bytesRead + length
        if bytesToRead < cfg.stripeSize then (buf, (bytesRead : Int))
        else readLoop cfg st offset blen fuel buf (pos + length) 0
               (bytesToRead - length) bytesRead

/-- `FileIO::read` (FileIO.cc:63-164).  Returns the updated caller buffer and
the returned byte count or negative error. -/
def read (cfg : Config) (ib : Option Inline) (st : FileState)
    (buf : List Nat) (offset blen : Nat) : List Nat × Int :=
  if blen = 0 then (buf, -22)
  else
    let p := inlinePhase ib buf offset blen
    if p.blen = 0 then (p.buf, (p.consumed : Int))
    else
      match getLastStripeIndexAndSize cfg st with
      | .error e => (p.buf, e)
      | .ok lsz =>
        if p.offset + p.blen > lsz.2 then (p.buf, -75)
        else readLoop cfg st p.offset p.blen p.blen p.buf p.consumed
               (p.offset % cfg.stripeSize) p.blen p.consumed

/-- Write one stripe object at an offset inside it, creating it when missing
(the effect of the per-stripe `op.write` of `FileIO::realWrite`). -/
def writeStripe (st : FileState) (idx off : Nat) (bs : List Nat) : FileState :=
  fun j => if j = idx then
    match st idx with
    | none => some { data := storeWrite [] off bs, sizeAttr := none }
    | some o => some { o with data := storeWrite o.data off bs }
  else st j

/-- The per-stripe loop of `FileIO::realWrite` (FileIO.cc:399-439).  `i` is
the loop index, `remaining` the iterations left (`totalStripes - i`), the
stripe written is `firstStripe + i`; the slice for the stripe starts at
`blen - bytesToWrite` in the caller buffer and is `min(stripeSize -
currentOffset, bytesToWrite)` bytes, zero-padded to a full stripe when the
pool has alignment. -/
def writeLoop (cfg : Config) (buff : List Nat) (blen firstStripe : Nat) :
    Nat → Nat → Nat → Nat → FileState → FileState
  | 0, _, _, _, st => st
  | remaining + 1, i, currentOffset, bytesToWrite, st =>
    let length := min (cfg.stripeSize - currentOffset) bytesToWrite
    let contentsStr := (buff.drop (blen - bytesToWrite)).take length
    let contents := if cfg.hasAlignment
                    then contentsStr ++ List.replicate (cfg.stripeSize - length) 0
                    else contentsStr
    let st := writeStripe st (firstStripe + i) currentOffset contents
    writeLoop cfg buff blen firstStripe remaining (i + 1) 0
      (bytesToWrite - length) st

/-- The stripe part of `FileIO::realWrite` (FileIO.cc:378-448): grow the
stored size with the compare-and-set (its return value is discarded,
FileIO.cc:393), then write every affected stripe.  Lock calls do not change
object state and the final `syncAndResetLocker` waits the submitted ops,
whose effects are already part of the state; `ret` stays 0. -/
def realWriteStripes (cfg : Config) (st : FileState) (buff : List Nat)
    (offset blen : Nat) : FileState × Int :=
  let currentOffset := offset % cfg.stripeSize
  let firstStripe := offset / cfg.stripeSize
  let lastStripe := (offset + blen - 1) / cfg.stripeSize
  let totalStripes := lastStripe - firstStripe + 1
  let st := (setSizeIfBigger cfg st (offset + blen)).1
  (writeLoop cfg buff blen firstStripe totalStripes 0 currentOffset blen st, 0)

/-- Modelled from the spec: `FileInlineBuffer::write` (not under src/) writes
into the intersection of the request with `[0, capacity)` and returns the
number of bytes placed; when the write end exceeds the capacity the rest of
the inline buffer is zero-filled. -/
def inlineWrite (b : Inline) (off : Nat) (bs : List Nat) : Inline × Nat :=
  let w := min bs.length (b.capacity - off)
  let c := storeWrite b.contents off (bs.take w)
  let c := if off + bs.length > b.capacity then padTo c b.capacity else c
  ({ b with contents := c }, w)

/-- Modelled from the spec: `FileInlineBuffer::fillRemainingInlineBuffer`
(not under src/) zero-pads the inline contents up to the capacity. -/
def fillRemainingInline (b : Inline) : Inline :=
  { b with contents := padTo b.contents b.capacity }

/-- `FileIO::realWrite` (FileIO.cc:340-448) including the inline-buffer
prefix absorption (FileIO.cc:346-376). -/
def realWrite (cfg : Config) (ib : Option Inline) (st : FileState)
    (buff : List Nat) (offset blen : Nat) : Option Inline × FileState × Int :=
  match ib with
  | some b =>
    if 0 < b.capacity then
      let r := if offset < b.capacity
               then inlineWrite b offset (buff.take blen)
               else (fillRemainingInline b, 0)
      let ics := r.2
      if blen - ics = 0 then (some r.1, st, 0)
      else
        let w := realWriteStripes cfg st (buff.drop ics) (offset + ics) (blen - ics)
        (some r.1, w.1, w.2)
    else
      let w := realWriteStripes cfg st buff offset blen
      (ib, w.1, w.2)
  | none =>
    let w := realWriteStripes cfg st buff offset blen
    (none, w.1, w.2)

/-- `FileIO::writeSync` (FileIO.cc:166-178).  The asynchronous op is created
and registered with the op manager (modelled as the count of registered ops)
before the parameters are validated; on a validation failure the function
returns with the op still registered. -/
def writeSyncM (cfg : Config) (ib : Option Inline) (st : FileState)
    (ops : Nat) (buff : List Nat) (offset blen : Nat) :
    (Option Inline × FileState) × Nat × Int :=
  let ops := ops + 1
  let v := verifyWriteParams cfg offset blen
  if v ≠ 0 then ((ib, st), ops, v)
  else
    let w := realWrite cfg ib st buff offset blen
    ((w.1, w.2.1), ops, w.2.2)

/-- `FileIO::write` (FileIO.cc:180-207): validation happens before the op is
registered and before the optional buffer copy; the real write is posted to
the executor, so at return no store operation has been issued.  The `Bool`
result records whether the caller buffer was copied. -/
def writeM (cfg : Config) (ib : Option Inline) (st : FileState) (ops : Nat)
    (offset blen : Nat) (copyBuffer : Bool) :
    (Option Inline × FileState) × Nat × Bool × Int :=
  let v := verifyWriteParams cfg offset blen
  if v ≠ 0 then ((ib, st), ops, false, v)
  else ((ib, st), ops + 1, copyBuffer, 0)

/-- Remove one object (the effect of the per-stripe `op.remove`). -/
def removeObj (st : FileState) (idx : Nat) : FileState :=
  fun j => if j = idx then none else st j

/-- The removal loop of `FileIO::remove` (FileIO.cc:480-500): remove stripes
`0, 1, ..., count - 1` in ascending order. -/
def removeLoop (st : FileState) : Nat → FileState
  | 0 => st
  | c + 1 => removeObj (removeLoop st c) c

/-- `FileIO::remove` (FileIO.cc:450-506): fetch the last stripe index (its
error, `-ENOENT` when the base object is gone, is returned unchanged), then
remove stripes `0..lastStripe`. -/
def removeM (cfg : Config) (st : FileState) : FileState × Int :=
  match getLastStripeIndexAndSize cfg st with
  | .error e => (st, e)
  | .ok lsz => (removeLoop st (lsz.1 + 1), 0)

/-- One iteration of the truncate loop (FileIO.cc:565-611) for loop index
`i`: for `i = 0` the new-last stripe is not removed but object-truncated
(zero-overwritten beyond the new last size when the pool has alignment),
guarded by `assert_exists`, which aborts the whole op when the object is
missing; for `i > 0` stripe `newLastStripe + i` is removed. -/
def truncStep (cfg : Config) (newLastStripe newLastStripeSize : Nat)
    (i : Nat) (st : FileState) : FileState :=
  if i = 0 then
    match st newLastStripe with
    | none => st
    | some o =>
      let d := if cfg.hasAlignment
               then storeWrite o.data newLastStripeSize
                      (List.replicate (cfg.stripeSize - newLastStripeSize) 0)
               else truncObjData o.data newLastStripeSize
      fun j => if j = newLastStripe then some { o with data := d } else st j
  else removeObj st (newLastStripe + i)

/-- The truncate loop (FileIO.cc:565-611), iterating `i` from
`totalStripes - 1` down to 0. -/
def truncLoop (cfg : Config) (newLastStripe newLastStripeSize : Nat) :
    Nat → FileState → FileState
  | 0, st => st
  | c + 1, st =>
    truncLoop cfg newLastStripe newLastStripeSize c
      (truncStep cfg newLastStripe newLastStripeSize c st)

/-- `FileIO::truncate` (FileIO.cc:508-617).  When the base object is missing
the code treats the last stripe index as 0 but leaves `currentSize`
uninitialised (FileIO.cc:534-543); that indeterminate stack value is the
`junk` argument.  The inline-buffer truncation is modelled from the spec
(`FileInlineBuffer::truncate` shrinks the contents to the new size).  The
function returns 0 after the loop; per-stripe op errors are discarded by
`syncAndResetLocker`. -/
def truncateM (cfg : Config) (ib : Option Inline) (st : FileState)
    (newSize junk : Nat) : Option Inline × FileState × Int :=
  if newSize > cfg.poolSize then (ib, st, -27)
  else
    let ib := ib.map fun b => { b with contents := b.contents.take newSize }
    let lsz := match getLastStripeIndexAndSize cfg st with
      | .error _ => (0, junk)
      | .ok p => p
    let newLastStripe := if newSize = 0 then 0
                         else (newSize - 1) / cfg.stripeSize
    let newLastStripeSize := newSize % cfg.stripeSize
    let newLastStripe := if newLastStripe = 0 ∧ newSize > cfg.stripeSize
                         then cfg.stripeSize else newLastStripe
    let totalStripes := if lsz.2 > newSize then lsz.1 - newLastStripe + 1 else 1
    let st := (setSize cfg st newSize).1
    (ib, truncLoop cfg newLastStripe newLastStripeSize totalStripes st, 0)

/-- The empty pool state of a fresh inode. -/
def emptyState : FileState := fun _ => none

/-- A state is size-well-formed when the stored `file_size` entry, if present,
is a fixed-width hex encoding of a size below the encoding range. -/
def sizeWF (cfg : Config) (st : FileState) : Prop :=
  ∀ o, st 0 = some o → ∀ s, o.sizeAttr = some s →
    ∃ m, m < 16 ^ cfg.hexWidth ∧ s = fileSizeToHex cfg.hexWidth m

/-- A sequence of concurrent size-growing writes, each applying its
compare-and-set through `setSizeIfBigger`. -/
def applyWrites (cfg : Config) (st : FileState) (ws : List Nat) : FileState :=
  ws.foldl (fun s v => (setSizeIfBigger cfg s v).1) st

/-- A concrete sample configuration: stripes of 8 bytes, pool cap 4095,
no alignment, 3 hex digits. -/
def cfgEx : Config := ⟨8, 4095, false, 3, by decide, by decide⟩

lemma hexDigitByte_mono : ∀ a < 16, ∀ b < 16,
    (hexDigitByte a < hexDigitByte b ↔ a < b) := by decide

lemma hexByteVal_hexDigitByte : ∀ d < 16, hexByteVal (hexDigitByte d) = d := by
  decide

lemma fileSizeToHex_length (w n : Nat) : (fileSizeToHex w n).length = w := by
  induction w generalizing n with
  | zero => rfl
  | succ w ih => simp [fileSizeToHex, ih]

lemma parseHex_aux (s : List Nat) (a : Nat) :
    s.foldl (fun acc b => acc * 16 + hexByteVal b) a
      = a * 16 ^ s.length + parseHex s := by
  induction s generalizing a with
  | nil => simp [parseHex]
  | cons b t ih =>
    simp only [List.foldl_cons, parseHex, ih (a * 16 + hexByteVal b),
      ih (0 * 16 + hexByteVal b), List.length_cons]
    ring

lemma parseHex_fileSizeToHex (w n : Nat) (h : n < 16 ^ w) :
    parseHex (fileSizeToHex w n) = n := by
  induction w generalizing n with
  | zero =>
    interval_cases n
    rfl
  | succ w ih =>
    have hdiv : n / 16 ^ w < 16 := by
      apply Nat.div_lt_of_lt_mul
      calc n < 16 ^ (w + 1) := h
        _ = 16 ^ w * 16 := by ring
    have hmod : n % 16 ^ w < 16 ^ w := Nat.mod_lt _ (Nat.pos_pow_of_pos w (by norm_num))
    show parseHex (hexDigitByte (n / 16 ^ w) :: fileSizeToHex w (n % 16 ^ w)) = n
    unfold parseHex
    rw [List.foldl_cons, parseHex_aux, fileSizeToHex_length]
    show _ * _ + parseHex _ = n
    rw [ih _ hmod, Nat.zero_mul, Nat.zero_add, hexByteVal_hexDigitByte _ hdiv]
    rw [Nat.mul_comm]
    exact Nat.div_add_mod n (16 ^ w)

lemma lexLt_hex_iff : ∀ w, ∀ a < 16 ^ w, ∀ b < 16 ^ w,
    (lexLt (fileSizeToHex w a) (fileSizeToHex w b) = true ↔ a < b) := by
  intro w
  induction w with
  | zero =>
    intro a ha b hb
    interval_cases a
    interval_cases b
    simp [fileSizeToHex, lexLt]
  | succ w ih =>
    intro a ha b hb
    have hE : 0 < 16 ^ w := Nat.pos_pow_of_pos w (by norm_num)
    have hda : a / 16 ^ w < 16 := by
      apply Nat.div_lt_of_lt_mul
      calc a < 16 ^ (w + 1) := ha
        _ = 16 ^ w * 16 := by ring
    have hdb : b / 16 ^ w < 16 := by
      apply Nat.div_lt_of_lt_mul
      calc b < 16 ^ (w + 1) := hb
        _ = 16 ^ w * 16 := by ring
    show (lexLt (hexDigitByte (a / 16 ^ w) :: fileSizeToHex w (a % 16 ^ w))
          (hexDigitByte (b / 16 ^ w) :: fileSizeToHex w (b % 16 ^ w)) = true) ↔ a < b
    rcases Nat.lt_trichotomy (a / 16 ^ w) (b / 16 ^ w) with hq | hq | hq
    · have hd : hexDigitByte (a / 16 ^ w) < hexDigitByte (b / 16 ^ w) :=
        (hexDigitByte_mono _ hda _ hdb).2 hq
      simp only [lexLt, if_pos hd, true_iff]
      exact Nat.lt_of_div_lt_div hq
    · have hd : hexDigitByte (a / 16 ^ w) = hexDigitByte (b / 16 ^ w) := by rw [hq]
      have h1 : ¬ hexDigitByte (a / 16 ^ w) < hexDigitByte (b / 16 ^ w) := by
        rw [hd]; exact Nat.lt_irrefl _
      have h2 : ¬ hexDigitByte (b / 16 ^ w) < hexDigitByte (a / 16 ^ w) := by
        rw [hd]; exact Nat.lt_irrefl _
      simp only [lexLt, if_neg h1, if_neg h2]
      rw [ih (a % 16 ^ w) (Nat.mod_lt _ hE) (b % 16 ^ w) (Nat.mod_lt _ hE)]
      have hea := Nat.div_add_mod a (16 ^ w)
      have heb := Nat.div_add_mod b (16 ^ w)
      rw [hq] at hea
      set t := 16 ^ w * (b / 16 ^ w) with ht
      omega
    · have hd : hexDigitByte (b / 16 ^ w) < hexDigitByte (a / 16 ^ w) :=
        (hexDigitByte_mono _ hdb _ hda).2 hq
      have h1 : ¬ hexDigitByte (a / 16 ^ w) < hexDigitByte (b / 16 ^ w) :=
        Nat.lt_asymm hd
      simp only [lexLt, if_neg h1, if_pos hd, Bool.false_eq_true, false_iff]
      exact Nat.not_lt.2 (Nat.le_of_lt (Nat.lt_of_div_lt_div hq))

lemma lexLt_nil_iff (l : List Nat) : lexLt [] l = true ↔ l ≠ [] := by
  cases l <;> simp [lexLt]

lemma getSize_of_attr (cfg : Config) (st : FileState) (o : Obj) (m : Nat)
    (hm : m < 16 ^ cfg.hexWidth) (h0 : st 0 = some o)
    (ha : o.sizeAttr = some (fileSizeToHex cfg.hexWidth m)) :
    getSize cfg st = m := by
  simp [getSize, getLastStripeIndexAndSize, h0, decodeSizeAttr, ha,
    parseHex_fileSizeToHex _ _ hm]

lemma getSize_of_no_attr (cfg : Config) (st : FileState) (o : Obj)
    (h0 : st 0 = some o) (ha : o.sizeAttr = none) :
    getSize cfg st = 0 := by
  simp [getSize, getLastStripeIndexAndSize, h0, decodeSizeAttr, ha]

lemma getSize_of_no_base (cfg : Config) (st : FileState)
    (h0 : st 0 = none) : getSize cfg st = 0 := by
  simp [getSize, getLastStripeIndexAndSize, h0]

lemma setSizeIfBigger_grows (cfg : Config) (st : FileState) (T : Nat)
    (hT : T < 16 ^ cfg.hexWidth) (hwf : sizeWF cfg st) :
    T ≤ getSize cfg (setSizeIfBigger cfg st T).1 ∧
      sizeWF cfg (setSizeIfBigger cfg st T).1 := by
  by_cases hlt : lexLt (storedSizeVal st) (fileSizeToHex cfg.hexWidth T) = true
  · simp only [setSizeIfBigger, hlt, if_true]
    constructor
    · refine Nat.le_of_eq (getSize_of_attr cfg _
        ⟨(match st 0 with | none => [] | some o => o.data),
          some (fileSizeToHex cfg.hexWidth T)⟩ T hT ?_ rfl).symm
      simp
    · intro o h0 s hs
      simp only [if_pos rfl] at h0
      obtain rfl : _ = o := Option.some.inj h0
      simp only at hs
      exact ⟨T, hT, (Option.some.inj hs).symm⟩
  · simp only [setSizeIfBigger, hlt, if_false, Bool.false_eq_true]
    refine ⟨?_, hwf⟩
    cases h0 : st 0 with
    | none =>
      have hsv : storedSizeVal st = [] := by simp [storedSizeVal, h0]
      rw [hsv] at hlt
      have hnil : fileSizeToHex cfg.hexWidth T = [] := by
        by_contra hne
        exact hlt ((lexLt_nil_iff _).2 hne)
      have hw : cfg.hexWidth = 0 := by
        have hl := congrArg List.length hnil
        rw [fileSizeToHex_length] at hl
        simpa using hl
      rw [hw] at hT
      interval_cases T
      exact Nat.zero_le _
    | some o =>
      cases ha : o.sizeAttr with
      | none =>
        have hsv : storedSizeVal st = [] := by simp [storedSizeVal, h0, ha]
        rw [hsv] at hlt
        have hnil : fileSizeToHex cfg.hexWidth T = [] := by
          by_contra hne
          exact hlt ((lexLt_nil_iff _).2 hne)
        have hw : cfg.hexWidth = 0 := by
          have hl := congrArg List.length hnil
          rw [fileSizeToHex_length] at hl
          simpa using hl
        rw [hw] at hT
        interval_cases T
        exact Nat.zero_le _
      | some s =>
        obtain ⟨m, hm, rfl⟩ := hwf o h0 s ha
        have hsv : storedSizeVal st = fileSizeToHex cfg.hexWidth m := by
          simp [storedSizeVal, h0, ha]
        rw [hsv] at hlt
        have hnm : ¬ m < T := fun hc =>
          hlt ((lexLt_hex_iff cfg.hexWidth m hm T hT).2 hc)
        rw [getSize_of_attr cfg st o m hm h0 ha]
        omega

lemma setSizeIfBigger_keeps (cfg : Config) (st : FileState) (v T : Nat)
    (hv : v < 16 ^ cfg.hexWidth) (hwf : sizeWF cfg st)
    (hT : T ≤ getSize cfg st) :
    T ≤ getSize cfg (setSizeIfBigger cfg st v).1 ∧
      sizeWF cfg (setSizeIfBigger cfg st v).1 := by
  by_cases hlt : lexLt (storedSizeVal st) (fileSizeToHex cfg.hexWidth v) = true
  · have hTv : T ≤ v := by
      cases h0 : st 0 with
      | none => rw [getSize_of_no_base cfg st h0] at hT; omega
      | some o =>
        cases ha : o.sizeAttr with
        | none => rw [getSize_of_no_attr cfg st o h0 ha] at hT; omega
        | some s =>
          obtain ⟨m, hm, rfl⟩ := hwf o h0 s ha
          have hsv : storedSizeVal st = fileSizeToHex cfg.hexWidth m := by
            simp [storedSizeVal, h0, ha]
          rw [hsv] at hlt
          have : m < v := (lexLt_hex_iff cfg.hexWidth m hm v hv).1 hlt
          rw [getSize_of_attr cfg st o m hm h0 ha] at hT
          omega
    simp only [setSizeIfBigger, hlt, if_true]
    constructor
    · refine le_trans hTv (Nat.le_of_eq (getSize_of_attr cfg _
        ⟨(match st 0 with | none => [] | some o => o.data),
          some (fileSizeToHex cfg.hexWidth v)⟩ v hv ?_ rfl).symm)
      simp
    · intro o h0 s hs
      simp only [if_pos rfl] at h0
      obtain rfl : _ = o := Option.some.inj h0
      simp only at hs
      exact ⟨v, hv, (Option.some.inj hs).symm⟩
  · simp only [setSizeIfBigger, hlt, if_false, Bool.false_eq_true]
    exact ⟨hT, hwf⟩

lemma applyWrites_keeps (cfg : Config) (T : Nat) (ws : List Nat) :
    ∀ st : FileState, sizeWF cfg st → (∀ v ∈ ws, v < 16 ^ cfg.hexWidth) →
      T ≤ getSize cfg st → T ≤ getSize cfg (applyWrites cfg st ws) := by
  induction ws with
  | nil => intro st _ _ hT; exact hT
  | cons v t ih =>
    intro st hwf hws hT
    have hv : v < 16 ^ cfg.hexWidth := hws v (List.mem_cons_self v t)
    obtain ⟨h1, h2⟩ := setSizeIfBigger_keeps cfg st v T hv hwf hT
    exact ih _ h2 (fun u hu => hws u (List.mem_cons_of_mem v hu)) h1

/-- Claim C2: the stored `file_size` is monotonically non-decreasing across
any sequence of writes: `setSizeIfBigger` changes the entry only when the
stored hex value compares lexicographically below the new one, and after a
write completing with top offset `T` every later `getSize`, across any
further sequence of size compare-and-sets and with no intervening truncate,
is at least `T`. -/
theorem claimC2_size_monotone (cfg : Config) (st : FileState) (T : Nat)
    (ws : List Nat) (hT : T < 16 ^ cfg.hexWidth) (hwf : sizeWF cfg st)
    (hws : ∀ v ∈ ws, v < 16 ^ cfg.hexWidth) :
    (lexLt (storedSizeVal st) (fileSizeToHex cfg.hexWidth T) = false →
      (setSizeIfBigger cfg st T).1 = st) ∧
    T ≤ getSize cfg (applyWrites cfg (setSizeIfBigger cfg st T).1 ws) := by
  constructor
  · intro hlt
    simp [setSizeIfBigger, hlt]
  · obtain ⟨h1, h2⟩ := setSizeIfBigger_grows cfg st T hT hwf
    exact applyWrites_keeps cfg T ws _ h2 hws h1

/-- A sample base state whose stored size is 5. -/
def stSize5 : FileState :=
  fun j => if j = 0 then some ⟨[], some (fileSizeToHex 3 5)⟩ else none

theorem claimC2_size_monotone_witness :
    ((7 : Nat) < 16 ^ cfgEx.hexWidth ∧ (∀ v ∈ [6, 9], v < 16 ^ cfgEx.hexWidth)) ∧
    ((lexLt (storedSizeVal stSize5) (fileSizeToHex cfgEx.hexWidth 7) = false →
        (setSizeIfBigger cfgEx stSize5 7).1 = stSize5) ∧
      7 ≤ getSize cfgEx (applyWrites cfgEx (setSizeIfBigger cfgEx stSize5 7).1 [6, 9])) := by
  refine ⟨⟨by decide, by decide⟩, ?_⟩
  apply claimC2_size_monotone cfgEx stSize5 7 [6, 9] (by decide) ?_ (by decide)
  intro o h0 s hs
  simp only [stSize5, if_pos rfl] at h0
  obtain rfl : _ = o := Option.some.inj h0
  simp only at hs
  exact ⟨5, by decide, (Option.some.inj hs).symm⟩

/-- Claim C6 counterexample: on `writeSync` with `len = 0`, validation fails
with `-EINVAL`, yet the asynchronous op created at entry has already been
registered with the op manager: starting from 0 registered ops, one is left
behind. -/
theorem claimC6_counterexample :
    (writeSyncM cfgEx none emptyState 0 [] 0 0).2.2 = -22 ∧
    (writeSyncM cfgEx none emptyState 0 [] 0 0).2.1 = 1 := by
  constructor <;> rfl

/-- Claim C6 amended: when parameter validation fails, `write` returns before
any side effect (no op registered, no buffer copied, no store operation
issued), while `writeSync` returns before any buffer copy or store operation
but after the async op created at entry was registered in the op manager. -/
theorem claimC6_validation_effects (cfg : Config) (ib : Option Inline)
    (st : FileState) (ops : Nat) (buff : List Nat) (offset blen : Nat)
    (copyBuffer : Bool) (h : verifyWriteParams cfg offset blen ≠ 0) :
    writeM cfg ib st ops offset blen copyBuffer
      = ((ib, st), ops, false, verifyWriteParams cfg offset blen) ∧
    writeSyncM cfg ib st ops buff offset blen
      = ((ib, st), ops + 1, verifyWriteParams cfg offset blen) := by
  constructor <;> simp [writeM, writeSyncM, h]

theorem claimC6_validation_effects_witness :
    verifyWriteParams cfgEx 0 0 ≠ 0 ∧
    (writeM cfgEx none emptyState 0 0 0 false
        = ((none, emptyState), 0, false, verifyWriteParams cfgEx 0 0) ∧
      writeSyncM cfgEx none emptyState 0 [] 0 0
        = ((none, emptyState), 0 + 1, verifyWriteParams cfgEx 0 0)) :=
  ⟨by decide, claimC6_validation_effects cfgEx none emptyState 0 [] 0 0 false (by decide)⟩

/-- Claim C10: when both validation rules fail at once (`len = 0` together
with `off + len` over the pool cap), `verifyWriteParams` returns `-EFBIG`;
the pool-size check overwrites the `-EINVAL` of the zero-length check. -/
theorem claimC10_efbig_overwrites_einval (cfg : Config) (offset length : Nat)
    (h0 : length = 0) (h1 : offset + length > cfg.poolSize) :
    verifyWriteParams cfg offset length = -27 := by
  simp only [verifyWriteParams, h0]
  rw [if_pos]
  omega

theorem claimC10_efbig_overwrites_einval_witness :
    (0 : Nat) = 0 ∧ (5000 : Nat) + 0 > cfgEx.poolSize ∧
      verifyWriteParams cfgEx 5000 0 = -27 :=
  ⟨rfl, by decide, claimC10_efbig_overwrites_einval cfgEx 5000 0 rfl (by decide)⟩

lemma writeStripe_base_attr (st : FileState) (idx off : Nat) (bs : List Nat)
    (o : Obj) (h : st 0 = some o) :
    ∃ o', writeStripe st idx off bs 0 = some o' ∧ o'.sizeAttr = o.sizeAttr := by
  by_cases h0 : (0 : Nat) = idx
  · subst h0
    exact ⟨{ o with data := storeWrite o.data off bs }, by simp [writeStripe, h], rfl⟩
  · exact ⟨o, by simp [writeStripe, h0, h], rfl⟩

lemma writeLoop_base_attr (cfg : Config) (buff : List Nat) (blen fs : Nat) :
    ∀ (r i co btw : Nat) (st : FileState) (o : Obj), st 0 = some o →
      ∃ o', writeLoop cfg buff blen fs r i co btw st 0 = some o' ∧
        o'.sizeAttr = o.sizeAttr := by
  intro r
  induction r with
  | zero => intro i co btw st o h; exact ⟨o, h, rfl⟩
  | succ r ih =>
    intro i co btw st o h
    obtain ⟨o1, h1, ha1⟩ := writeStripe_base_attr st (fs + i) co _ o h
    obtain ⟨o2, h2, ha2⟩ := ih (i + 1) 0
      (btw - min (cfg.stripeSize - co) btw) _ o1 h1
    exact ⟨o2, h2, ha2.trans ha1⟩

/-- Claim C7: when the stored size is at least the proposed `off + len`, the
compare-and-set fails with the store's `-ECANCELED` and leaves the state
unchanged, and the write path treats that as success: `realWrite` discards
the return value, completes with 0, and the stored `file_size` is
unchanged. -/
theorem claimC7_canceled_cas_is_noop_success (cfg : Config) (st : FileState)
    (o : Obj) (s offset blen : Nat) (buff : List Nat)
    (h0 : st 0 = some o)
    (ha : o.sizeAttr = some (fileSizeToHex cfg.hexWidth s))
    (hs : s < 16 ^ cfg.hexWidth)
    (hge : offset + blen ≤ s) :
    (setSizeIfBigger cfg st (offset + blen)).2 = -125 ∧
    (setSizeIfBigger cfg st (offset + blen)).1 = st ∧
    (realWriteStripes cfg st buff offset blen).2 = 0 ∧
    getSize cfg (realWriteStripes cfg st buff offset blen).1 = s := by
  have hT : offset + blen < 16 ^ cfg.hexWidth := lt_of_le_of_lt hge hs
  have hsv : storedSizeVal st = fileSizeToHex cfg.hexWidth s := by
    simp [storedSizeVal, h0, ha]
  have hlt : lexLt (storedSizeVal st)
      (fileSizeToHex cfg.hexWidth (offset + blen)) = false := by
    rw [hsv]
    by_contra hc
    have : lexLt (fileSizeToHex cfg.hexWidth s)
        (fileSizeToHex cfg.hexWidth (offset + blen)) = true := by
      revert hc
      cases lexLt (fileSizeToHex cfg.hexWidth s)
        (fileSizeToHex cfg.hexWidth (offset + blen)) <;> simp
    have := (lexLt_hex_iff cfg.hexWidth s hs (offset + blen) hT).1 this
    omega
  refine ⟨by simp [setSizeIfBigger, hlt], by simp [setSizeIfBigger, hlt], rfl, ?_⟩
  show getSize cfg (writeLoop cfg buff blen _ _ 0 _ blen
    (setSizeIfBigger cfg st (offset + blen)).1) = s
  have hst : (setSizeIfBigger cfg st (offset + blen)).1 = st := by
    simp [setSizeIfBigger, hlt]
  rw [hst]
  obtain ⟨o', h', ha'⟩ := writeLoop_base_attr cfg buff blen
    (offset / cfg.stripeSize) _ 0 (offset % cfg.stripeSize) blen st o h0
  exact getSize_of_attr cfg _ o' s hs h' (ha'.trans ha)

/-- A sample base state of size 100 with one full stripe object. -/
def stSize100 : FileState :=
  fun j => if j = 0 then some ⟨List.replicate 8 5, some (fileSizeToHex 3 100)⟩
           else none

theorem claimC7_canceled_cas_is_noop_success_witness :
    (stSize100 0 = some ⟨List.replicate 8 5, some (fileSizeToHex 3 100)⟩ ∧
      (100 : Nat) < 16 ^ cfgEx.hexWidth ∧ (0 : Nat) + 3 ≤ 100) ∧
    ((setSizeIfBigger cfgEx stSize100 (0 + 3)).2 = -125 ∧
      (setSizeIfBigger cfgEx stSize100 (0 + 3)).1 = stSize100 ∧
      (realWriteStripes cfgEx stSize100 [1, 2, 3] 0 3).2 = 0 ∧
      getSize cfgEx (realWriteStripes cfgEx stSize100 [1, 2, 3] 0 3).1 = 100) :=
  ⟨⟨rfl, by decide, by decide⟩,
    claimC7_canceled_cas_is_noop_success cfgEx stSize100 _ 100 0 3 [1, 2, 3]
      rfl rfl (by decide) (by decide)⟩

lemma removeLoop_spec (st : FileState) :
    ∀ c j, removeLoop st c j = if j < c then none else st j := by
  intro c
  induction c with
  | zero => intro j; simp [removeLoop]
  | succ c ih =>
    intro j
    show removeObj (removeLoop st c) c j = _
    unfold removeObj
    rw [ih j]
    by_cases hj : j = c
    · simp [hj]
    · by_cases hlt : j < c
      · simp [hj, hlt, Nat.lt_succ_of_lt hlt]
      · have : ¬ j < c + 1 := by omega
        simp [hj, hlt, this]

/-- Claim C8: `remove` on a file whose base object is missing returns
`-ENOENT` and removes nothing; on a file whose base object exists, the first
`remove` succeeds (and deletes the base object), so an immediately following
`remove` returns `-ENOENT` and changes nothing. -/
theorem claimC8_remove_twice_not_found (cfg : Config) (st : FileState)
    (o : Obj) (h0 : st 0 = some o) :
    (removeM cfg st).2 = 0 ∧
    (removeM cfg st).1 0 = none ∧
    removeM cfg (removeM cfg st).1 = ((removeM cfg st).1, -2) ∧
    (∀ st' : FileState, st' 0 = none → removeM cfg st' = (st', -2)) := by
  have hnone : ∀ st' : FileState, st' 0 = none → removeM cfg st' = (st', -2) := by
    intro st' h
    simp [removeM, getLastStripeIndexAndSize, h]
  have h1 : (removeM cfg st).2 = 0 := by
    simp [removeM, getLastStripeIndexAndSize, h0]
  have h2 : (removeM cfg st).1 0 = none := by
    simp only [removeM, getLastStripeIndexAndSize, h0]
    rw [removeLoop_spec]
    simp
  exact ⟨h1, h2, hnone _ h2, hnone⟩

theorem claimC8_remove_twice_not_found_witness :
    stSize5 0 = some ⟨[], some (fileSizeToHex 3 5)⟩ ∧
    ((removeM cfgEx stSize5).2 = 0 ∧
      (removeM cfgEx stSize5).1 0 = none ∧
      removeM cfgEx (removeM cfgEx stSize5).1 = ((removeM cfgEx stSize5).1, -2) ∧
      (∀ st' : FileState, st' 0 = none → removeM cfgEx st' = (st', -2))) :=
  ⟨rfl, claimC8_remove_twice_not_found cfgEx stSize5 _ rfl⟩

/-- A base state recording size 13 with no stripe data written (all stripe
reads hit missing objects). -/
def stSize13 : FileState :=
  fun j => if j = 0 then some ⟨[], some (fileSizeToHex 3 13)⟩ else none

/-- Claim C4 fails on the code: with stripe size 8 and file size 13, the read
`read(buf, 6, 7)` has `off + len = 13 ≤ file_size` and covers bytes 8..12 of
the missing stripe 1, yet the loop breaks after the first stripe because
`bytesToRead = 7 < stripeSize` (FileIO.cc:155): only the 2 bytes of stripe 0
are zero-filled, positions 2..6 of the buffer keep their previous contents,
and the call returns 2 instead of 7. -/
theorem claimC4_hole_not_zero_filled :
    read cfgEx none stSize13 [1, 1, 1, 1, 1, 1, 1] 6 7
      = ([0, 0, 1, 1, 1, 1, 1], 2) := by
  decide

/-- The inline buffer of the C9 failing input: capacity 16, contents of
length 4; the bytes that happen to follow the contents string in memory all
read as 77. -/
def ibEx : Inline := ⟨16, [10, 11, 12, 13], fun _ => 77⟩

/-- Claim C9 fails on the code: with inline contents of length 4 and the read
`read(buf, 2, 3)`, the code computes the copy count as
`min(blen, contents.length) = 3` instead of the claimed
`min(len, contents.length - off) = 2`, so it copies the 2 in-bounds bytes
plus one byte read past the end of the contents string, advances by 3 and
returns 3. -/
theorem claimC9_inline_copy_ignores_offset :
    inlinePhase (some ibEx) [9, 9, 9] 2 3 = ⟨[12, 13, 77], 5, 0, 3⟩ ∧
    read cfgEx (some ibEx) stSize13 [9, 9, 9] 2 3 = ([12, 13, 77], 3) ∧
    min 3 (ibEx.contents.length - 2) = 2 := by
  refine ⟨by decide, by decide, by decide⟩

lemma listWrite_zero_drop (buf bs : List Nat) :
    (listWrite buf 0 bs).drop bs.length = buf.drop bs.length := by
  show (buf.take 0 ++ bs ++ buf.drop (0 + bs.length)).drop bs.length = _
  rw [List.take_zero, List.nil_append, Nat.zero_add, List.drop_left]

lemma inlinePhase_drop (ib : Option Inline) (buf : List Nat)
    (offset blen : Nat) :
    ((inlinePhase ib buf offset blen).buf).drop
        ((inlinePhase ib buf offset blen).consumed)
      = buf.drop ((inlinePhase ib buf offset blen).consumed) := by
  cases ib with
  | none => rfl
  | some b =>
    simp only [inlinePhase]
    by_cases hc : offset < b.capacity
    · simp only [hc, if_true]
      by_cases hr : min blen b.contents.length > 0
      · simp only [hr, if_true]
        have hlen : (inlineReadBytes b offset (min blen b.contents.length)).length
            = min blen b.contents.length := by
          simp [inlineReadBytes]
        have hd := listWrite_zero_drop buf
          (inlineReadBytes b offset (min blen b.contents.length))
        rw [hlen] at hd
        exact hd
      · simp only [hr, if_false]
    · simp only [hc, if_false]

/-- Claim C5: when, after the inline prefix has been consumed, the remaining
request extends past the authoritative `file_size` of an existing base
object, `read` returns `-EOVERFLOW` and copies nothing from the stripe
objects (the caller buffer past the inline prefix is untouched); no short
read is produced. -/
theorem claimC5_read_overflow (cfg : Config) (ib : Option Inline)
    (st : FileState) (buf : List Nat) (offset blen : Nat) (o : Obj)
    (hblen : 0 < blen) (h0 : st 0 = some o)
    (hrem : 0 < (inlinePhase ib buf offset blen).blen)
    (hover : (inlinePhase ib buf offset blen).offset
        + (inlinePhase ib buf offset blen).blen > decodeSizeAttr o) :
    read cfg ib st buf offset blen = ((inlinePhase ib buf offset blen).buf, -75) ∧
    ((inlinePhase ib buf offset blen).buf).drop
        ((inlinePhase ib buf offset blen).consumed)
      = buf.drop ((inlinePhase ib buf offset blen).consumed) := by
  refine ⟨?_, inlinePhase_drop ib buf offset blen⟩
  simp only [read, getLastStripeIndexAndSize, h0]
  rw [if_neg (by omega : ¬ blen = 0), if_neg (by omega :
    ¬ (inlinePhase ib buf offset blen).blen = 0)]
  rw [if_pos hover]

theorem claimC5_read_overflow_witness :
    (0 < 5 ∧ stSize13 0 = some ⟨[], some (fileSizeToHex 3 13)⟩ ∧
      0 < (inlinePhase none [7, 7, 7, 7, 7] 10 5).blen ∧
      (inlinePhase none [7, 7, 7, 7, 7] 10 5).offset
          + (inlinePhase none [7, 7, 7, 7, 7] 10 5).blen
        > decodeSizeAttr ⟨[], some (fileSizeToHex 3 13)⟩) ∧
    (read cfgEx none stSize13 [7, 7, 7, 7, 7] 10 5
        = ((inlinePhase none [7, 7, 7, 7, 7] 10 5).buf, -75) ∧
      ((inlinePhase none [7, 7, 7, 7, 7] 10 5).buf).drop
          ((inlinePhase none [7, 7, 7, 7, 7] 10 5).consumed)
        = [7, 7, 7, 7, 7].drop ((inlinePhase none [7, 7, 7, 7, 7] 10 5).consumed)) :=
  ⟨⟨by decide, rfl, by decide, by decide⟩,
    claimC5_read_overflow cfgEx none stSize13 [7, 7, 7, 7, 7] 10 5 _
      (by decide) rfl (by decide) (by decide)⟩

/-- The effect of the `i = 0` iteration of the truncate loop on the new-last
stripe object: absent objects stay absent (`assert_exists` aborts the op),
otherwise the object is truncated, or zero-overwritten past the new last
stripe size on aligned pools. -/
def truncBase (cfg : Config) (nlss : Nat) : Option Obj → Option Obj
  | none => none
  | some o =>
    let d := if cfg.hasAlignment
             then storeWrite o.data nlss (List.replicate (cfg.stripeSize - nlss) 0)
             else truncObjData o.data nlss
    some { o with data := d }

lemma truncStep_zero (cfg : Config) (nls nlss : Nat) (st : FileState)
    (j : Nat) :
    truncStep cfg nls nlss 0 st j =
      if j = nls then truncBase cfg nlss (st nls) else st j := by
  unfold truncStep truncBase
  cases h : st nls with
  | none =>
    by_cases hj : j = nls <;> simp [hj, h]
  | some o =>
    by_cases hj : j = nls <;> simp [hj, h]

lemma truncLoop_spec (cfg : Config) (nls nlss : Nat) :
    ∀ (c : Nat) (st : FileState) (j : Nat),
      truncLoop cfg nls nlss c st j =
        if c = 0 then st j
        else if j = nls then truncBase cfg nlss (st nls)
        else if nls + 1 ≤ j ∧ j ≤ nls + (c - 1) then none
        else st j := by
  intro c
  induction c with
  | zero => intro st j; simp [truncLoop]
  | succ c ih =>
    intro st j
    show truncLoop cfg nls nlss c (truncStep cfg nls nlss c st) j = _
    rw [ih]
    cases c with
    | zero =>
      rw [truncStep_zero]
      split_ifs <;> first | rfl | omega | exact False.elim (by assumption)
    | succ d =>
      have hstep : truncStep cfg nls nlss (d + 1) st
          = removeObj st (nls + (d + 1)) := by
        unfold truncStep
        rw [if_neg (by omega : ¬ d + 1 = 0)]
      rw [hstep]
      simp only [removeObj]
      split_ifs <;> first | rfl | omega | exact False.elim (by assumption)

lemma ceil_pred (q S : Nat) (hq : 0 < q) :
    (S + q - 1) / q - 1 = if S = 0 then 0 else (S - 1) / q := by
  by_cases h : S = 0
  · subst h
    rw [if_pos rfl]
    have : (0 + q - 1) / q = 0 := Nat.div_eq_of_lt (by omega)
    omega
  · have hrw : S + q - 1 = (S - 1) + q := by omega
    rw [if_neg h, hrw, Nat.add_div_right _ hq]
    exact Nat.add_sub_cancel _ _

lemma setSize_state (cfg : Config) (st : FileState) (S : Nat) (o : Obj)
    (h0 : st 0 = some o) (j : Nat) :
    (setSize cfg st S).1 j =
      if j = 0 then some ⟨o.data, some (fileSizeToHex cfg.hexWidth S)⟩
      else st j := by
  unfold setSize
  by_cases hj : j = 0 <;> simp [hj, h0]

/-- Claim C3: for `S ≤ pool_max_file_size`, a successful `truncate(S)` on a
file whose base object exists (stored size `cur`, no stripes beyond the last
one) returns 0, leaves `getSize` equal to `S`, leaves no stripe object with
index above `⌈S/stripe_size⌉ - 1` (natural-number arithmetic), and on a
shrink without pool alignment the new-last stripe object is truncated to
`S mod stripe_size` rather than deleted. -/
theorem claimC3_truncate_size_and_stripes (cfg : Config) (ib : Option Inline)
    (st : FileState) (S cur junk : Nat) (o : Obj)
    (hS : S ≤ cfg.poolSize) (h0 : st 0 = some o)
    (ha : o.sizeAttr = some (fileSizeToHex cfg.hexWidth cur))
    (hcur : cur < 16 ^ cfg.hexWidth)
    (hholes : ∀ j, lastStripeOf cfg cur < j → st j = none) :
    (truncateM cfg ib st S junk).2.2 = 0 ∧
    getSize cfg (truncateM cfg ib st S junk).2.1 = S ∧
    (∀ j, (S + cfg.stripeSize - 1) / cfg.stripeSize - 1 < j →
      (truncateM cfg ib st S junk).2.1 j = none) ∧
    (S < cur → cfg.hasAlignment = false →
      ∀ o', st (if S = 0 then 0 else (S - 1) / cfg.stripeSize) = some o' →
        ∃ o'', (truncateM cfg ib st S junk).2.1
            (if S = 0 then 0 else (S - 1) / cfg.stripeSize) = some o'' ∧
          o''.data = truncObjData o'.data (S % cfg.stripeSize)) := by
  have hq := cfg.stripe_pos
  have hSw : S < 16 ^ cfg.hexWidth := lt_of_le_of_lt hS cfg.pool_lt
  have hg : getLastStripeIndexAndSize cfg st
      = .ok (lastStripeOf cfg cur, cur) := by
    simp [getLastStripeIndexAndSize, h0, decodeSizeAttr, ha,
      parseHex_fileSizeToHex _ _ hcur]
  have hdead : ¬ ((if S = 0 then 0 else (S - 1) / cfg.stripeSize) = 0
      ∧ S > cfg.stripeSize) := by
    rintro ⟨hz, hgt⟩
    rw [if_neg (by omega : ¬ S = 0)] at hz
    have : 1 ≤ (S - 1) / cfg.stripeSize :=
      (Nat.one_le_div_iff hq).2 (by omega)
    omega
  set nls := if S = 0 then 0 else (S - 1) / cfg.stripeSize with hnls
  have htm : truncateM cfg ib st S junk =
      (ib.map fun b => { b with contents := b.contents.take S },
       truncLoop cfg nls (S % cfg.stripeSize)
         (if cur > S then lastStripeOf cfg cur - nls + 1 else 1)
         ((setSize cfg st S).1), 0) := by
    unfold truncateM
    rw [if_neg (by omega : ¬ S > cfg.poolSize), hg]
    simp only [hdead, if_false]
  set c := if cur > S then lastStripeOf cfg cur - nls + 1 else 1 with hc
  have hc1 : 1 ≤ c := by
    rw [hc]
    by_cases h : cur > S <;> simp [h]
  have hcne : ¬ c = 0 := by omega
  have hfin : ∀ j, (truncateM cfg ib st S junk).2.1 j =
      if j = nls then truncBase cfg (S % cfg.stripeSize) ((setSize cfg st S).1 nls)
      else if nls + 1 ≤ j ∧ j ≤ nls + (c - 1) then none
      else (setSize cfg st S).1 j := by
    intro j
    rw [htm]
    show truncLoop cfg nls (S % cfg.stripeSize) c ((setSize cfg st S).1) j = _
    rw [truncLoop_spec, if_neg hcne]
  have hnlsL : cur > S → nls ≤ lastStripeOf cfg cur := by
    intro hdown
    rw [hnls]
    by_cases hSz : S = 0
    · simp [hSz]
    · rw [if_neg hSz]
      unfold lastStripeOf
      rw [if_pos (by omega : 0 < cur)]
      exact Nat.div_le_div_right (by omega)
  have hLnls : ¬ cur > S → lastStripeOf cfg cur ≤ nls := by
    intro hup
    unfold lastStripeOf
    by_cases hc0 : 0 < cur
    · rw [if_pos hc0, hnls, if_neg (by omega : ¬ S = 0)]
      exact Nat.div_le_div_right (by omega)
    · rw [if_neg hc0]
      exact Nat.zero_le _
  refine ⟨by rw [htm], ?_, ?_, ?_⟩
  · -- getSize after truncate is S
    by_cases hnz : nls = 0
    · have hval := hfin 0
      rw [if_pos hnz.symm, hnz, setSize_state cfg st S o h0, if_pos rfl] at hval
      unfold truncBase at hval
      exact getSize_of_attr cfg _ _ S hSw hval rfl
    · have hval := hfin 0
      rw [if_neg (fun h => hnz h.symm),
        if_neg (by omega : ¬ (nls + 1 ≤ 0 ∧ 0 ≤ nls + (c - 1))),
        setSize_state cfg st S o h0, if_pos rfl] at hval
      exact getSize_of_attr cfg _ _ S hSw hval rfl
  · -- no stripe above the new last index
    intro j hj
    rw [ceil_pred _ _ hq, ← hnls] at hj
    have hjne : ¬ j = nls := by omega
    have hjz : ¬ j = 0 := by omega
    rw [hfin j, if_neg hjne]
    by_cases hr : nls + 1 ≤ j ∧ j ≤ nls + (c - 1)
    · rw [if_pos hr]
    · rw [if_neg hr, setSize_state cfg st S o h0, if_neg hjz]
      apply hholes
      by_cases hdown : cur > S
      · rw [hc, if_pos hdown] at hr
        have := hnlsL hdown
        omega
      · have := hLnls hdown
        rw [hc, if_neg hdown] at hr
        omega
  · -- on shrink the new-last stripe is truncated, not deleted
    intro hdown halign o' ho'
    have hval := hfin nls
    rw [if_pos rfl, setSize_state cfg st S o h0] at hval
    by_cases hnz : nls = 0
    · rw [if_pos hnz] at hval
      have ho'o : o' = o := by
        rw [hnz, h0] at ho'
        exact (Option.some.inj ho').symm
      refine ⟨⟨truncObjData o.data (S % cfg.stripeSize),
        some (fileSizeToHex cfg.hexWidth S)⟩, ?_, by rw [ho'o]⟩
      rw [hval]
      unfold truncBase
      simp [halign]
    · rw [if_neg hnz, ho'] at hval
      refine ⟨⟨truncObjData o'.data (S % cfg.stripeSize), o'.sizeAttr⟩, ?_, rfl⟩
      rw [hval]
      unfold truncBase
      simp [halign]

/-- A 12-byte file over two stripes of 8: stripe 0 full, stripe 1 with 4
bytes. -/
def stTwoStripes : FileState :=
  fun j => if j = 0
           then some ⟨[65, 66, 67, 68, 69, 70, 71, 72], some (fileSizeToHex 3 12)⟩
           else if j = 1 then some ⟨[73, 74, 75, 76], none⟩
           else none

theorem claimC3_truncate_size_and_stripes_witness :
    ((5 : Nat) ≤ cfgEx.poolSize ∧
      stTwoStripes 0 = some ⟨[65, 66, 67, 68, 69, 70, 71, 72], some (fileSizeToHex 3 12)⟩ ∧
      (12 : Nat) < 16 ^ cfgEx.hexWidth ∧
      (∀ j, lastStripeOf cfgEx 12 < j → stTwoStripes j = none)) ∧
    ((truncateM cfgEx none stTwoStripes 5 0).2.2 = 0 ∧
      getSize cfgEx (truncateM cfgEx none stTwoStripes 5 0).2.1 = 5 ∧
      (∀ j, (5 + cfgEx.stripeSize - 1) / cfgEx.stripeSize - 1 < j →
        (truncateM cfgEx none stTwoStripes 5 0).2.1 j = none) ∧
      ((5 : Nat) < 12 → cfgEx.hasAlignment = false →
        ∀ o', stTwoStripes (if (5 : Nat) = 0 then 0 else (5 - 1) / cfgEx.stripeSize) = some o' →
          ∃ o'', (truncateM cfgEx none stTwoStripes 5 0).2.1
              (if (5 : Nat) = 0 then 0 else (5 - 1) / cfgEx.stripeSize) = some o'' ∧
            o''.data = truncObjData o'.data (5 % cfgEx.stripeSize))) := by
  have hholes : ∀ j, lastStripeOf cfgEx 12 < j → stTwoStripes j = none := by
    intro j hj
    have h1 : lastStripeOf cfgEx 12 = 1 := by decide
    rw [h1] at hj
    unfold stTwoStripes
    rw [if_neg (by omega : ¬ j = 0), if_neg (by omega : ¬ j = 1)]
  exact ⟨⟨by decide, rfl, by decide, hholes⟩,
    claimC3_truncate_size_and_stripes cfgEx none stTwoStripes 5 12 0 _
      (by decide) rfl rfl (by decide) hholes⟩

/-- The slice of the caller buffer written to stripe `j` by a write of the
whole buffer at offset 0, zero-padded to a full stripe on aligned pools. -/
def stripeSlice (cfg : Config) (B : List Nat) (j : Nat) : List Nat :=
  let s := (B.drop (j * cfg.stripeSize)).take cfg.stripeSize
  if cfg.hasAlignment then s ++ List.replicate (cfg.stripeSize - s.length) 0
  else s

/-- The `file_size` attribute of an optional object. -/
def attrOf : Option Obj → Option (List Nat)
  | none => none
  | some o => o.sizeAttr

lemma storeWrite_nil (bs : List Nat) : storeWrite [] 0 bs = bs := by
  simp [storeWrite, padTo]

lemma take_min_length (l : List Nat) (q : Nat) :
    l.take (min q l.length) = l.take q := by
  rcases Nat.le_total q l.length with h | h
  · rw [Nat.min_eq_left h]
  · rw [Nat.min_eq_right h, List.take_length, List.take_of_length_le h]

lemma writeStripe_at (st : FileState) (idx off : Nat) (bs : List Nat) :
    writeStripe st idx off bs idx
      = some ⟨storeWrite (match st idx with | none => [] | some o => o.data) off bs,
          attrOf (st idx)⟩ := by
  unfold writeStripe attrOf
  cases h : st idx <;> simp [h]

lemma writeStripe_ne (st : FileState) (idx off : Nat) (bs : List Nat)
    (j : Nat) (h : j ≠ idx) : writeStripe st idx off bs j = st j := by
  simp [writeStripe, h]

lemma writeLoop_zero (cfg : Config) (buff : List Nat) (blen fs i co btw : Nat)
    (st : FileState) : writeLoop cfg buff blen fs 0 i co btw st = st := rfl

lemma writeLoop_fresh (cfg : Config) (B : List Nat) :
    ∀ (r i btw : Nat) (st : FileState),
      r = (btw - 1) / cfg.stripeSize + 1 →
      btw + i * cfg.stripeSize = B.length →
      0 < btw →
      (∀ j, i ≤ j → ∀ o, st j = some o → o.data = []) →
      ∀ j, writeLoop cfg B B.length 0 r i 0 btw st j =
        if i ≤ j ∧ j * cfg.stripeSize < B.length
        then some ⟨stripeSlice cfg B j, attrOf (st j)⟩
        else st j := by
  have hq := cfg.stripe_pos
  intro r
  induction r with
  | zero =>
    intro i btw st hr
    exact absurd hr.symm (Nat.succ_ne_zero _)
  | succ R ih =>
    intro i btw st hr hbtw hpos hempty j
    have hstep : writeLoop cfg B B.length 0 (R + 1) i 0 btw st
        = writeLoop cfg B B.length 0 R (i + 1) 0
            (btw - min (cfg.stripeSize - 0) btw)
            (writeStripe st (0 + i) 0
              (if cfg.hasAlignment
               then ((B.drop (B.length - btw)).take (min (cfg.stripeSize - 0) btw))
                    ++ List.replicate
                        (cfg.stripeSize - min (cfg.stripeSize - 0) btw) 0
               else (B.drop (B.length - btw)).take (min (cfg.stripeSize - 0) btw))) :=
      rfl
    rw [hstep]
    simp only [Nat.sub_zero, Nat.zero_add]
    have hdroplen : (B.drop (i * cfg.stripeSize)).length
        = B.length - i * cfg.stripeSize := List.length_drop _ _
    have hnb : B.length - btw = i * cfg.stripeSize := by omega
    have hbtwlen : (B.drop (i * cfg.stripeSize)).length = btw := by omega
    have hcontents :
        (if cfg.hasAlignment
         then ((B.drop (B.length - btw)).take (min cfg.stripeSize btw))
              ++ List.replicate (cfg.stripeSize - min cfg.stripeSize btw) 0
         else (B.drop (B.length - btw)).take (min cfg.stripeSize btw))
          = stripeSlice cfg B i := by
      simp only [stripeSlice]
      rw [hnb]
      have ht := take_min_length (B.drop (i * cfg.stripeSize)) cfg.stripeSize
      rw [hbtwlen] at ht
      rw [ht, List.length_take, hbtwlen]
    rw [hcontents]
    have hwr : writeStripe st i 0 (stripeSlice cfg B i) i
        = some ⟨stripeSlice cfg B i, attrOf (st i)⟩ := by
      rw [writeStripe_at]
      cases h : st i with
      | none => simp [storeWrite_nil]
      | some o => simp [hempty i (Nat.le_refl i) o h, storeWrite_nil]
    by_cases hlast : btw ≤ cfg.stripeSize
    · -- last stripe: the loop runs once more and stops
      have hmin : min cfg.stripeSize btw = btw := Nat.min_eq_right hlast
      have hR : R = 0 := by
        have hz : (btw - 1) / cfg.stripeSize = 0 :=
          Nat.div_eq_of_lt (by omega)
        omega
      rw [hmin, hR, Nat.sub_self, writeLoop_zero]
      by_cases hj : j = i
      · subst hj
        rw [hwr, if_pos ⟨Nat.le_refl j, by omega⟩]
      · rw [writeStripe_ne st i 0 _ j hj]
        by_cases hcond : i ≤ j ∧ j * cfg.stripeSize < B.length
        · exfalso
          obtain ⟨h1, h2⟩ := hcond
          have hij : i + 1 ≤ j := by omega
          have hm : (i + 1) * cfg.stripeSize ≤ j * cfg.stripeSize :=
            Nat.mul_le_mul_right _ hij
          have hiq : (i + 1) * cfg.stripeSize
              = i * cfg.stripeSize + cfg.stripeSize := by ring
          omega
        · rw [if_neg hcond]
    · -- a full stripe was written, the loop continues
      push_neg at hlast
      have hmin : min cfg.stripeSize btw = cfg.stripeSize :=
        Nat.min_eq_left (Nat.le_of_lt hlast)
      rw [hmin]
      have hR : R = (btw - cfg.stripeSize - 1) / cfg.stripeSize + 1 := by
        have hd : (btw - 1) / cfg.stripeSize
            = (btw - 1 - cfg.stripeSize) / cfg.stripeSize + 1 :=
          Nat.div_eq_sub_div hq (by omega)
        rw [(by omega : btw - 1 - cfg.stripeSize
          = btw - cfg.stripeSize - 1)] at hd
        omega
      have hbtw' : (btw - cfg.stripeSize) + (i + 1) * cfg.stripeSize
          = B.length := by
        have hiq : (i + 1) * cfg.stripeSize
            = i * cfg.stripeSize + cfg.stripeSize := by ring
        omega
      have hempty' : ∀ k, i + 1 ≤ k →
          ∀ o, writeStripe st i 0 (stripeSlice cfg B i) k = some o →
            o.data = [] := by
        intro k hk o hko
        rw [writeStripe_ne st i 0 _ k (by omega)] at hko
        exact hempty k (by omega) o hko
      rw [ih (i + 1) (btw - cfg.stripeSize)
        (writeStripe st i 0 (stripeSlice cfg B i)) hR hbtw' (by omega) hempty' j]
      by_cases hj : j = i
      · subst hj
        rw [if_neg (by omega : ¬ (j + 1 ≤ j ∧ j * cfg.stripeSize < B.length)),
          hwr, if_pos ⟨Nat.le_refl j, by omega⟩]
      · by_cases hcond : i + 1 ≤ j ∧ j * cfg.stripeSize < B.length
        · rw [if_pos hcond, writeStripe_ne st i 0 _ j hj,
            if_pos (⟨by omega, hcond.2⟩ : i ≤ j ∧ j * cfg.stripeSize < B.length)]
        · rw [if_neg hcond, writeStripe_ne st i 0 _ j hj]
          have hcond2 : ¬ (i ≤ j ∧ j * cfg.stripeSize < B.length) := by
            intro hc
            exact hcond ⟨by omega, hc.2⟩
          rw [if_neg hcond2]

lemma readLoop_done (cfg : Config) (st : FileState) (offset blen fuel : Nat)
    (buf : List Nat) (pos co br : Nat) :
    readLoop cfg st offset blen fuel buf pos co 0 br = (buf, (br : Int)) := by
  cases fuel <;> rfl

lemma readLoop_step_some (cfg : Config) (st : FileState)
    (offset blen fuel : Nat) (buf : List Nat) (pos co btw br : Nat) (o : Obj)
    (hbtw : ¬ btw = 0)
    (ho : st ((blen - btw + offset) / cfg.stripeSize) = some o)
    (hshort : ¬ ((o.data.drop co).take (min (cfg.stripeSize - co) btw)).length
      < min (cfg.stripeSize - co) btw) :
    readLoop cfg st offset blen (fuel + 1) buf pos co btw br
      = (if btw < cfg.stripeSize
         then (listWrite buf pos ((o.data.drop co).take (min (cfg.stripeSize - co) btw)),
               ((br + min (cfg.stripeSize - co) btw : Nat) : Int))
         else readLoop cfg st offset blen fuel
                (listWrite buf pos ((o.data.drop co).take (min (cfg.stripeSize - co) btw)))
                (pos + min (cfg.stripeSize - co) btw) 0
                (btw - min (cfg.stripeSize - co) btw)
                (br + min (cfg.stripeSize - co) btw)) := by
  conv_lhs => simp only [readLoop]
  rw [if_neg hbtw, ho]
  simp only [if_neg hshort]

lemma stripeSlice_take (cfg : Config) (B : List Nat) (i btw : Nat)
    (h : (B.drop (i * cfg.stripeSize)).length = btw) :
    (stripeSlice cfg B i).take (min cfg.stripeSize btw)
      = (B.drop (i * cfg.stripeSize)).take cfg.stripeSize := by
  have hlen : ((B.drop (i * cfg.stripeSize)).take cfg.stripeSize).length
      = min cfg.stripeSize btw := by rw [List.length_take, h]
  unfold stripeSlice
  by_cases halign : cfg.hasAlignment
  · simp only [halign, if_true]
    rw [List.take_append_of_le_length (le_of_eq hlen.symm)]
    rw [← hlen, List.take_length]
  · simp only [halign, Bool.false_eq_true, if_false]
    rw [← hlen, List.take_length]

lemma listWrite_assemble (B rest s : List Nat) (pos : Nat)
    (hpos : pos ≤ B.length) (hs : (B.drop pos).take s.length = s) :
    listWrite (B.take pos ++ rest) pos s
      = B.take (pos + s.length) ++ rest.drop s.length := by
  have hlen : (B.take pos).length = pos := by
    rw [List.length_take]; omega
  have h1 : (B.take pos ++ rest).take pos = B.take pos := by
    rw [List.take_append_of_le_length (le_of_eq hlen.symm), List.take_take,
      Nat.min_self]
  have h2 : (B.take pos ++ rest).drop (pos + s.length) = rest.drop s.length := by
    rw [show pos + s.length = (B.take pos).length + s.length from by rw [hlen],
      List.drop_append]
  show (B.take pos ++ rest).take pos ++ s
      ++ (B.take pos ++ rest).drop (pos + s.length) = _
  rw [h1, h2]
  calc B.take pos ++ s ++ rest.drop s.length
      = (B.take pos ++ (B.drop pos).take s.length) ++ rest.drop s.length := by
        rw [hs]
    _ = B.take (pos + s.length) ++ rest.drop s.length := by
        rw [← List.take_add]

lemma readLoop_assemble (cfg : Config) (st : FileState) (B : List Nat)
    (hstate : ∀ j, j * cfg.stripeSize < B.length →
      ∃ a, st j = some ⟨stripeSlice cfg B j, a⟩) :
    ∀ (fuel i btw : Nat) (rest : List Nat),
      btw + i * cfg.stripeSize = B.length →
      0 < btw →
      btw ≤ fuel →
      rest.length = btw →
      readLoop cfg st 0 B.length fuel
          (B.take (i * cfg.stripeSize) ++ rest)
          (i * cfg.stripeSize) 0 btw (i * cfg.stripeSize)
        = (B, (B.length : Int)) := by
  have hq := cfg.stripe_pos
  intro fuel
  induction fuel with
  | zero =>
    intro i btw rest h1 h2 h3 h4
    omega
  | succ f ih =>
    intro i btw rest hbtw hpos hfuel hrest
    have hiq : B.length - btw + 0 = i * cfg.stripeSize := by omega
    have hidx : (B.length - btw + 0) / cfg.stripeSize = i := by
      rw [hiq]
      exact Nat.mul_div_cancel _ hq
    have hiqlt : i * cfg.stripeSize < B.length := by omega
    have hdlen : (B.drop (i * cfg.stripeSize)).length = btw := by
      rw [List.length_drop]
      omega
    obtain ⟨a, ha⟩ := hstate i hiqlt
    have ho : st ((B.length - btw + 0) / cfg.stripeSize)
        = some ⟨stripeSlice cfg B i, a⟩ := by rw [hidx]; exact ha
    have hret : ((stripeSlice cfg B i).drop 0).take
        (min (cfg.stripeSize - 0) btw)
        = (B.drop (i * cfg.stripeSize)).take cfg.stripeSize := by
      rw [List.drop_zero, Nat.sub_zero, stripeSlice_take cfg B i btw hdlen]
    have hretlen : (((stripeSlice cfg B i).drop 0).take
        (min (cfg.stripeSize - 0) btw)).length = min cfg.stripeSize btw := by
      rw [hret, List.length_take, hdlen]
    have hshort : ¬ (((stripeSlice cfg B i).drop 0).take
        (min (cfg.stripeSize - 0) btw)).length
        < min (cfg.stripeSize - 0) btw := by
      rw [hretlen, Nat.sub_zero]
      exact Nat.lt_irrefl _
    rw [readLoop_step_some cfg st 0 B.length f _ _ 0 btw _ _
      (by omega) ho hshort]
    simp only [Nat.sub_zero] at hret hretlen ⊢
    rw [hret]
    have hsl : ((B.drop (i * cfg.stripeSize)).take cfg.stripeSize).length
        = min cfg.stripeSize btw := by rw [List.length_take, hdlen]
    have hassem : listWrite (B.take (i * cfg.stripeSize) ++ rest)
        (i * cfg.stripeSize) ((B.drop (i * cfg.stripeSize)).take cfg.stripeSize)
        = B.take (i * cfg.stripeSize + min cfg.stripeSize btw)
          ++ rest.drop (min cfg.stripeSize btw) := by
      rw [← hsl]
      exact listWrite_assemble B rest _ (i * cfg.stripeSize) (by omega)
        (by
          rw [hsl, ← hdlen]
          exact take_min_length _ _)
    rw [hassem]
    by_cases hend : btw < cfg.stripeSize
    · rw [if_pos hend]
      have hmin : min cfg.stripeSize btw = btw := Nat.min_eq_right (by omega)
      rw [hmin, (by omega : i * cfg.stripeSize + btw = B.length),
        List.take_length, ← hrest, List.drop_length, List.append_nil]
    · rw [if_neg hend]
      have hmin : min cfg.stripeSize btw = cfg.stripeSize :=
        Nat.min_eq_left (by omega)
      rw [hmin]
      by_cases hz : btw - cfg.stripeSize = 0
      · rw [hz, readLoop_done,
          (by omega : i * cfg.stripeSize + cfg.stripeSize = B.length),
          List.take_length,
          (by omega : cfg.stripeSize = btw), ← hrest, List.drop_length,
          List.append_nil]
      · have hiq2 : i * cfg.stripeSize + cfg.stripeSize
            = (i + 1) * cfg.stripeSize := by ring
        rw [hiq2]
        have hih := ih (i + 1) (btw - cfg.stripeSize)
          (rest.drop cfg.stripeSize)
          (by
            have hr : (i + 1) * cfg.stripeSize
                = i * cfg.stripeSize + cfg.stripeSize := by ring
            omega)
          (by omega) (by omega)
          (by rw [List.length_drop]; omega)
        exact hih

/-- Claim C1: on a fresh empty file (no inline buffer bound), a
`writeSync` of a whole non-empty buffer `B` at offset 0 succeeds, splitting
`B` across stripes of `stripeSize` bytes, and a subsequent `read` of
`B.length` bytes at offset 0 reassembles exactly `B` and returns its
length. -/
theorem claimC1_write_read_roundtrip (cfg : Config) (B buf0 : List Nat)
    (hn : 0 < B.length) (hle : B.length ≤ cfg.poolSize)
    (hbuf : buf0.length = B.length) :
    (writeSyncM cfg none emptyState 0 B 0 B.length).2.2 = 0 ∧
    read cfg none (writeSyncM cfg none emptyState 0 B 0 B.length).1.2
        buf0 0 B.length
      = (B, (B.length : Int)) := by
  have hq := cfg.stripe_pos
  have hnw : B.length < 16 ^ cfg.hexWidth := lt_of_le_of_lt hle cfg.pool_lt
  have hv : verifyWriteParams cfg 0 B.length = 0 := by
    simp only [verifyWriteParams]
    rw [if_neg (by omega : ¬ (0 : Nat) + B.length > cfg.poolSize),
      if_neg (by omega : ¬ B.length = 0)]
  have hwne : fileSizeToHex cfg.hexWidth B.length ≠ [] := by
    have hwz : cfg.hexWidth ≠ 0 := by
      intro h0
      have hp := cfg.pool_lt
      rw [h0, pow_zero] at hp
      omega
    cases hw : cfg.hexWidth with
    | zero => exact absurd hw hwz
    | succ w' =>
      simp [fileSizeToHex]
  have hlex : lexLt (storedSizeVal emptyState)
      (fileSizeToHex cfg.hexWidth B.length) = true := by
    have hsv : storedSizeVal emptyState = [] := rfl
    rw [hsv]
    exact (lexLt_nil_iff _).2 hwne
  have hcas : (setSizeIfBigger cfg emptyState B.length).1
      = fun j => if j = 0
        then some ⟨[], some (fileSizeToHex cfg.hexWidth B.length)⟩
        else none := by
    simp only [setSizeIfBigger, hlex, if_true]
    rfl
  have hws : writeSyncM cfg none emptyState 0 B 0 B.length
      = ((none, (realWriteStripes cfg emptyState B 0 B.length).1), 0 + 1,
         (realWriteStripes cfg emptyState B 0 B.length).2) := by
    unfold writeSyncM realWrite
    rw [hv]
    norm_num
  have hwrite : (realWriteStripes cfg emptyState B 0 B.length).1
      = writeLoop cfg B B.length 0 ((B.length - 1) / cfg.stripeSize + 1) 0 0
          B.length
          (fun j => if j = 0
            then some ⟨[], some (fileSizeToHex cfg.hexWidth B.length)⟩
            else none) := by
    unfold realWriteStripes
    rw [← hcas]
    simp only [Nat.zero_mod, Nat.zero_div, Nat.zero_add, Nat.sub_zero]
  have hempty' : ∀ j, 0 ≤ j → ∀ o,
      (fun j => if j = 0
        then some (Obj.mk [] (some (fileSizeToHex cfg.hexWidth B.length)))
        else none) j = some o → o.data = [] := by
    intro j _ o ho
    by_cases hj : j = 0
    · simp only [hj, if_pos rfl] at ho
      obtain rfl : _ = o := Option.some.inj ho
      rfl
    · simp only [hj, if_false] at ho
      exact Option.noConfusion ho
  have hst1 := writeLoop_fresh cfg B ((B.length - 1) / cfg.stripeSize + 1) 0
    B.length
    (fun j => if j = 0
      then some ⟨[], some (fileSizeToHex cfg.hexWidth B.length)⟩
      else none)
    rfl (by simp) hn hempty'
  have hbase : writeLoop cfg B B.length 0
      ((B.length - 1) / cfg.stripeSize + 1) 0 0 B.length
      (fun j => if j = 0
        then some ⟨[], some (fileSizeToHex cfg.hexWidth B.length)⟩
        else none) 0
      = some ⟨stripeSlice cfg B 0,
          some (fileSizeToHex cfg.hexWidth B.length)⟩ := by
    rw [hst1 0, if_pos ⟨Nat.le_refl 0, by simpa using hn⟩]
    rfl
  have hstate : ∀ j, j * cfg.stripeSize < B.length →
      ∃ a, writeLoop cfg B B.length 0
        ((B.length - 1) / cfg.stripeSize + 1) 0 0 B.length
        (fun j => if j = 0
          then some ⟨[], some (fileSizeToHex cfg.hexWidth B.length)⟩
          else none) j = some ⟨stripeSlice cfg B j, a⟩ := by
    intro j hj
    refine ⟨attrOf (if j = 0
      then some (Obj.mk [] (some (fileSizeToHex cfg.hexWidth B.length)))
      else none), ?_⟩
    rw [hst1 j, if_pos ⟨Nat.zero_le j, hj⟩]
  constructor
  · rw [hws]
    rfl
  · rw [hws]
    show read cfg none (realWriteStripes cfg emptyState B 0 B.length).1
      buf0 0 B.length = _
    rw [hwrite]
    unfold read
    rw [if_neg (by omega : ¬ B.length = 0)]
    simp only [inlinePhase]
    rw [if_neg (by omega : ¬ B.length = 0)]
    have hg : getLastStripeIndexAndSize cfg
        (writeLoop cfg B B.length 0
          ((B.length - 1) / cfg.stripeSize + 1) 0 0 B.length
          (fun j => if j = 0
            then some ⟨[], some (fileSizeToHex cfg.hexWidth B.length)⟩
            else none))
        = .ok (lastStripeOf cfg B.length, B.length) := by
      simp [getLastStripeIndexAndSize, hbase, decodeSizeAttr,
        parseHex_fileSizeToHex _ _ hnw]
    rw [hg]
    show (if 0 + B.length > B.length then (buf0, (-75 : Int))
          else readLoop cfg (writeLoop cfg B B.length 0
              ((B.length - 1) / cfg.stripeSize + 1) 0 0 B.length
              (fun j => if j = 0
                then some ⟨[], some (fileSizeToHex cfg.hexWidth B.length)⟩
                else none))
            0 B.length B.length buf0 0 (0 % cfg.stripeSize) B.length 0)
        = (B, (B.length : Int))
    rw [if_neg (by omega : ¬ (0 : Nat) + B.length > B.length), Nat.zero_mod]
    have hasm := readLoop_assemble cfg _ B hstate B.length 0 B.length buf0
      (by simp) hn (Nat.le_refl _) hbuf
    simpa using hasm

/-- The 12-byte cross-stripe scenario: write then read round-trips. -/
theorem claimC1_write_read_roundtrip_witness :
    ((0 : Nat) < ([65, 66, 67, 68, 69, 70, 71, 72, 73, 74, 75, 76] : List Nat).length ∧
      ([65, 66, 67, 68, 69, 70, 71, 72, 73, 74, 75, 76] : List Nat).length ≤ cfgEx.poolSize ∧
      (List.replicate 12 9).length
        = ([65, 66, 67, 68, 69, 70, 71, 72, 73, 74, 75, 76] : List Nat).length) ∧
    ((writeSyncM cfgEx none emptyState 0
        [65, 66, 67, 68, 69, 70, 71, 72, 73, 74, 75, 76] 0
        ([65, 66, 67, 68, 69, 70, 71, 72, 73, 74, 75, 76] : List Nat).length).2.2 = 0 ∧
      read cfgEx none
          (writeSyncM cfgEx none emptyState 0
            [65, 66, 67, 68, 69, 70, 71, 72, 73, 74, 75, 76] 0
            ([65, 66, 67, 68, 69, 70, 71, 72, 73, 74, 75, 76] : List Nat).length).1.2
          (List.replicate 12 9) 0
          ([65, 66, 67, 68, 69, 70, 71, 72, 73, 74, 75, 76] : List Nat).length
        = ([65, 66, 67, 68, 69, 70, 71, 72, 73, 74, 75, 76],
           (([65, 66, 67, 68, 69, 70, 71, 72, 73, 74, 75, 76] : List Nat).length : Int))) :=
  ⟨⟨by decide, by decide, by decide⟩,
    claimC1_write_read_roundtrip cfgEx
      [65, 66, 67, 68, 69, 70, 71, 72, 73, 74, 75, 76]
      (List.replicate 12 9) (by decide) (by decide) (by decide)⟩

end RadosFs
